import Mathlib

/-!
Verification of the company-network builder and analyzer
(`scripts/analysis/meilisearch-company-network.py`).

The script queries a full-text search index for company records, folds the
hits into an in-memory graph of companies ("empresas"), owners ("socios")
and ownership edges ("connections"), and then ranks the graph three ways.

Shallow embedding conventions:
- a Python dict used as an insertion-ordered map becomes an association list
  `List (String × _)`; `lookupKey` returns the first binding of a key;
- an open JSON record field that the script reads with `d.get(k)` becomes an
  `Option` field (`none` covers both a missing key and a JSON null, since
  `get` conflates them); a field read with `d[k]` (raising `KeyError` when
  the key is missing) or with `d.get(k, default)` (where a present null is
  distinct from a missing key) becomes a two-level `Option (Option _)`:
  the outer layer is key presence, the inner one nullability;
- a raised Python exception becomes `Except.error`;
- the single HTTP call is modelled by its observable response
  (`SearchResponse`): a status code plus an optional parsed body
  (`none` = the payload does not parse, so `response.json()` raises).
-/

namespace CompanyNetwork

/-- One ownership entry embedded in a company hit (an element of the
`socios` array). All fields are read with `socio.get(...)`, so each is
optional and `none` covers missing-or-null. -/
structure Socio where
  cpf : Option String
  nome : Option String
  qualificacao : Option String
  data_entrada : Option String
  percentual : Option Int
deriving DecidableEq

/-- One company record (hit) returned by the search index.
`cnpj` and `razao_social` are read with mandatory indexing (`company[...]`),
so a missing `razao_social` key raises `KeyError`; the outer `Option` of
`razao_social` is key presence and the inner one a JSON null.
`capital_social` is read with `company.get("capital_social", 0)`, which
distinguishes a missing key (defaulted to 0) from a present null, hence the
two-level `Option` as well. `socios` is read with `company.get("socios", [])`. -/
structure CompanyRecord where
  cnpj : String
  razao_social : Option (Option String)
  nome_fantasia : Option String
  capital_social : Option (Option Int)
  uf : Option String
  situacao_cadastral : Option String
  socios : List Socio
deriving DecidableEq

/-- The entity stored in `network["companies"][cnpj]` (lines 95-103). -/
structure Entity where
  cnpj : String
  razao_social : Option String
  nome_fantasia : Option String
  capital_social : Option Int
  uf : Option String
  situacao : Option String
  socios_count : Nat
deriving DecidableEq

/-- The person stored in `network["socios"][cpf]` (lines 112-117). -/
structure SocioNode where
  cpf : String
  nome : Option String
  companies : List String
deriving DecidableEq

/-- One edge appended to `network["connections"]` (lines 120-126). -/
structure Connection where
  cnpj : String
  cpf : String
  qualificacao : Option String
  data_entrada : Option String
  percentual : Option Int
deriving DecidableEq

/-- The aggregate built by `build_network` (lines 72-76). -/
structure Network where
  companies : List (String × Entity)
  socios : List (String × SocioNode)
  connections : List Connection
deriving DecidableEq

/-- The empty network `build_network` starts from. -/
def Network.empty : Network := ⟨[], [], []⟩

/-- A parsed search payload; the script reads `json().get("hits", [])`,
so the `hits` key itself may be missing. -/
structure SearchBody where
  hits : Option (List CompanyRecord)
deriving DecidableEq

/-- The observable outcome of the one HTTP POST: a status code and, when the
payload parses as JSON, the parsed body. `body = none` means
`response.json()` raises a decode error. -/
structure SearchResponse where
  status_code : Nat
  body : Option SearchBody
deriving DecidableEq

/-- First binding of a key in an insertion-ordered association list;
Python dict lookup (keys are unique by construction there). -/
def lookupKey {β : Type} : List (String × β) → String → Option β
  | [], _ => none
  | p :: ps, k => if p.1 = k then some p.2 else lookupKey ps k

/-- Function `search_companies` (lines 20-31): on a 200 response return
`hits` (defaulting to `[]` when the key is missing), on any other status
return `[]`. A 200 response whose payload does not parse makes
`response.json()` raise, modelled as an error. -/
def search_companies (resp : SearchResponse) : Except String (List CompanyRecord) :=
  if resp.status_code = 200 then
    match resp.body with
    | some b => .ok (b.hits.getD [])
    | none => .error "JSONDecodeError"
  else
    .ok []

/-- Function `get_company_by_cnpj` (lines 33-45): on a 200 response return
the first hit if any (`hits[0] if hits else None`), else `None`; on any
other status return `None`. An unparseable 200 payload raises. -/
def get_company_by_cnpj (resp : SearchResponse) : Except String (Option CompanyRecord) :=
  if resp.status_code = 200 then
    match resp.body with
    | some b => .ok (b.hits.getD []).head?
    | none => .error "JSONDecodeError"
  else
    .ok none

/-- Function `find_companies_by_cpf` (lines 47-59): same response handling
as `search_companies`, only the request differs. -/
def find_companies_by_cpf (resp : SearchResponse) : Except String (List CompanyRecord) :=
  if resp.status_code = 200 then
    match resp.body with
    | some b => .ok (b.hits.getD [])
    | none => .error "JSONDecodeError"
  else
    .ok []

/-- Python truthiness of the `cpf` field at line 107-109: `if not cpf:
continue` skips both a missing/null value and an empty string. -/
def truthyCpf : Option String → Option String
  | none => none
  | some c => if c = "" then none else some c

/-- The entity dict literal of lines 95-103, given the value `razao` the
mandatory `company["razao_social"]` access produced. A missing
`capital_social` key defaults to 0; a present null stays null;
`socios_count` is the raw length of the `socios` array. -/
def entityOfRecord (company : CompanyRecord) (razao : Option String) : Entity :=
  { cnpj := company.cnpj
    razao_social := razao
    nome_fantasia := company.nome_fantasia
    capital_social := (company.capital_social).getD (some 0)
    uf := company.uf
    situacao := company.situacao_cadastral
    socios_count := company.socios.length }

/-- Line 128, `network["socios"][cpf]["companies"].append(cnpj)`: append
`cnpj` to the `companies` list of the first binding of `cpf` (the Python
dict has unique keys, so at most one binding matches). -/
def appendCompany (cpf cnpj : String) : List (String × SocioNode) → List (String × SocioNode)
  | [] => []
  | p :: ps =>
    if p.1 = cpf then (p.1, { p.2 with companies := p.2.companies ++ [cnpj] }) :: ps
    else p :: appendCompany cpf cnpj ps

/-- Body of the `for socio in company.get("socios", [])` loop
(lines 106-128): skip falsy cpf; else create the socio node if absent,
append one connection, and append the cnpj to the socio's company list. -/
def processSocio (cnpj : String) (net : Network) (socio : Socio) : Network :=
  match truthyCpf socio.cpf with
  | none => net
  | some cpf =>
    let socios0 :=
      if (lookupKey net.socios cpf).isSome then net.socios
      else net.socios ++ [(cpf, { cpf := cpf, nome := socio.nome, companies := [] })]
    { net with
      socios := appendCompany cpf cnpj socios0
      connections := net.connections ++
        [{ cnpj := cnpj, cpf := cpf, qualificacao := socio.qualificacao,
           data_entrada := socio.data_entrada, percentual := socio.percentual }] }

/-- State of the loop of lines 86-128: the network under construction plus
the `processed_cnpjs` dedup set (kept as a list in insertion order). -/
structure BuildState where
  network : Network
  processed_cnpjs : List String
deriving DecidableEq

/-- Body of the `for company in initial_companies` loop (lines 86-128):
skip a cnpj already processed; otherwise register it, insert the entity
(raising `KeyError` when the `razao_social` key is missing), and fold the
`socios` array. -/
def processCompany (st : BuildState) (company : CompanyRecord) : Except String BuildState :=
  if company.cnpj ∈ st.processed_cnpjs then .ok st
  else
    match company.razao_social with
    | none => .error "KeyError: razao_social"
    | some razao =>
      let net0 : Network := { st.network with
        companies := st.network.companies ++ [(company.cnpj, entityOfRecord company razao)] }
      .ok { network := company.socios.foldl (processSocio company.cnpj) net0
            processed_cnpjs := st.processed_cnpjs ++ [company.cnpj] }

/-- The fold of `build_network` over the fetched hits (lines 72-135),
starting from the empty network and an empty dedup set. -/
def build_from_hits (hits : List CompanyRecord) : Except String Network := do
  let st ← hits.foldlM processCompany ⟨Network.empty, []⟩
  return st.network

/-- Function `build_network` (lines 61-135): one seed search (a raised
search exception propagates), then the fold over the hits. -/
def build_network (resp : SearchResponse) : Except String Network := do
  let initial_companies ← search_companies resp
  build_from_hits initial_companies

/-- First ranking of `analyze_network` (lines 145-149):
`sorted(socios.items(), key=len(companies), reverse=True)[:10]`.
Python's `sorted` with `reverse=True` is a stable descending sort, matched
by a stable merge sort under the reversed comparison. -/
def socios_by_companies (network : Network) : List (String × SocioNode) :=
  (network.socios.mergeSort
    (fun a b => decide (b.2.companies.length ≤ a.2.companies.length))).take 10

/-- Second ranking (lines 156-160): entities by `socios_count`, descending,
first 10. -/
def companies_by_socios (network : Network) : List (String × Entity) :=
  (network.companies.mergeSort
    (fun a b => decide (b.2.socios_count ≤ a.2.socios_count))).take 10

/-- The sort key `x[1]["capital_social"] or 0` of line 170: on an integer
capital, Python `or 0` maps null to 0 and keeps any value (0 itself is
falsy, but `or` then still yields 0), which is exactly `getD 0`. Used only
for comparison; the stored attribute is not changed. -/
def capitalOrZero (e : Entity) : Int :=
  (e.capital_social).getD 0

/-- Third ranking (lines 168-172): entities by capital, descending,
null-as-0, first 10. -/
def companies_by_capital (network : Network) : List (String × Entity) :=
  (network.companies.mergeSort
    (fun a b => decide (capitalOrZero b.2 ≤ capitalOrZero a.2))).take 10

/-- Report line 153, `data['nome'][:40]`: slicing raises `TypeError` when
the stored name is null. -/
def printSocioLine (x : String × SocioNode) : Except String Unit :=
  match x.2.nome with
  | none => .error "TypeError: NoneType"
  | some _ => .ok ()

/-- Report lines 164 and 176, `data['razao_social'][:50]`: slicing raises
`TypeError` when the stored name is null. (The capital line uses
`capital_social or 0`, which never raises on an integer-or-null value.) -/
def printCompanyLine (x : String × Entity) : Except String Unit :=
  match x.2.razao_social with
  | none => .error "TypeError: NoneType"
  | some _ => .ok ()

/-- Sequencing of one report loop: the first raised line aborts. -/
def printAll {α : Type} (line : α → Except String Unit) : List α → Except String Unit
  | [] => .ok ()
  | x :: xs => do
    line x
    printAll line xs

/-- The three ranking lists `analyze_network` computes and reports. -/
structure Analysis where
  topSocios : List (String × SocioNode)
  topCompaniesBySocios : List (String × Entity)
  topCompaniesByCapital : List (String × Entity)
deriving DecidableEq

/-- Function `analyze_network` (lines 137-178): compute and report the
three rankings in order; a `TypeError` raised while formatting a line
propagates. -/
def analyze_network (network : Network) : Except String Analysis := do
  let sbc := socios_by_companies network
  printAll printSocioLine sbc
  let cbs := companies_by_socios network
  printAll printCompanyLine cbs
  let cbc := companies_by_capital network
  printAll printCompanyLine cbc
  return ⟨sbc, cbs, cbc⟩

/-! ### Derived notions used to state and prove the invariants -/

/-- One validated ownership event: the entity being processed, the truthy
cpf extracted from one ownership entry, and that entry. -/
structure OwnEvent where
  cnpj : String
  cpf : String
  socio : Socio
deriving DecidableEq

/-- The connection appended for one validated ownership event. -/
def connectionOfEvent (e : OwnEvent) : Connection :=
  { cnpj := e.cnpj, cpf := e.cpf, qualificacao := e.socio.qualificacao,
    data_entrada := e.socio.data_entrada, percentual := e.socio.percentual }

/-- The validated ownership events one record's `socios` array contributes,
in array order. -/
def socioEvents (cnpj : String) (socios : List Socio) : List OwnEvent :=
  socios.filterMap (fun s => (truthyCpf s.cpf).map (fun c => ⟨cnpj, c, s⟩))

/-- The validated ownership events a record stream contributes, skipping
records whose cnpj was already seen. -/
def eventLog (seen : List String) : List CompanyRecord → List OwnEvent
  | [] => []
  | r :: rs =>
    if r.cnpj ∈ seen then eventLog seen rs
    else socioEvents r.cnpj r.socios ++ eventLog (seen ++ [r.cnpj]) rs

/-- The company-map entries a record stream contributes, skipping records
whose cnpj was already seen. (On a record the build would reject with a
`KeyError` the `razao_social` value is irrelevant and read with a default.) -/
def companyEntries (seen : List String) : List CompanyRecord → List (String × Entity)
  | [] => []
  | r :: rs =>
    if r.cnpj ∈ seen then companyEntries seen rs
    else (r.cnpj, entityOfRecord r (r.razao_social.getD none)) ::
      companyEntries (seen ++ [r.cnpj]) rs

/-- The cnpjs a record stream adds to the dedup set, in order. -/
def newCnpjs (seen : List String) : List CompanyRecord → List String
  | [] => []
  | r :: rs =>
    if r.cnpj ∈ seen then newCnpjs seen rs
    else r.cnpj :: newCnpjs (seen ++ [r.cnpj]) rs

/-- Keep only the first record of each cnpj (relative to an initial seen
set), mirroring the `processed_cnpjs` guard. -/
def dedupFrom (seen : List String) : List CompanyRecord → List CompanyRecord
  | [] => []
  | r :: rs =>
    if r.cnpj ∈ seen then dedupFrom seen rs
    else r :: dedupFrom (seen ++ [r.cnpj]) rs

/-- How a batch of ownership events transforms one socio-map binding:
an existing node gets the matching cnpjs appended; an absent one is created
by the first matching event (which also fixes the display name). -/
def mergeLookup (old : Option SocioNode) (q : String) (evs : List OwnEvent) : Option SocioNode :=
  match old, evs.filter (fun e => decide (e.cpf = q)) with
  | some p, mine => some { p with companies := p.companies ++ mine.map OwnEvent.cnpj }
  | none, [] => none
  | none, e :: rest => some { cpf := q
                              nome := e.socio.nome
                              companies := (e :: rest).map OwnEvent.cnpj }

/-- Referential integrity of a network: every connection's cnpj is a key of
the company map and its cpf a key of the socio map. -/
def EdgeIntegrity (net : Network) : Prop :=
  ∀ e ∈ net.connections,
    (lookupKey net.companies e.cnpj).isSome ∧ (lookupKey net.socios e.cpf).isSome

/-! ### Concrete data used to exercise the definitions -/

/-- Ownership entry with a full set of fields, cpf "P1". -/
def wSocio1 : Socio :=
  { cpf := some "P1"
    nome := some "Jo"
    qualificacao := some "49"
    data_entrada := some "2019-05-01"
    percentual := some 50 }

/-- Second entry for the same cpf "P1", carrying a different display name. -/
def wSocio2 : Socio :=
  { cpf := some "P1"
    nome := some "Joana"
    qualificacao := none
    data_entrada := none
    percentual := none }

/-- Entry whose cpf is the empty string (falsy in Python). -/
def wSocioEmptyCpf : Socio :=
  { cpf := some ""
    nome := some "Anon"
    qualificacao := none
    data_entrada := none
    percentual := none }

/-- Entry with no cpf key at all. -/
def wSocioNoCpf : Socio :=
  { cpf := none
    nome := some "Nil"
    qualificacao := none
    data_entrada := none
    percentual := none }

/-- A full company hit: four ownership entries, two of them valid. -/
def wRecA : CompanyRecord :=
  { cnpj := "A"
    razao_social := some (some "Acme")
    nome_fantasia := none
    capital_social := some (some 1000)
    uf := some "SP"
    situacao_cadastral := some "02"
    socios := [wSocio1, wSocio2, wSocioEmptyCpf, wSocioNoCpf] }

/-- A duplicate hit for cnpj "A" with different attributes and one valid
ownership entry for a new cpf "P2". -/
def wRecA2 : CompanyRecord :=
  { cnpj := "A"
    razao_social := some (some "Other")
    nome_fantasia := none
    capital_social := some (some 900)
    uf := none
    situacao_cadastral := none
    socios := [{ cpf := some "P2"
                 nome := some "Bob"
                 qualificacao := none
                 data_entrada := none
                 percentual := none }] }

/-- A hit with no `capital_social` key (defaults to 0) and no socios. -/
def wRecD : CompanyRecord :=
  { cnpj := "D"
    razao_social := some (some "Dco")
    nome_fantasia := none
    capital_social := none
    uf := none
    situacao_cadastral := none
    socios := [] }

/-- A hit with no `razao_social` key: indexing it raises `KeyError`. -/
def wRecNoRazao : CompanyRecord :=
  { cnpj := "C"
    razao_social := none
    nome_fantasia := none
    capital_social := none
    uf := none
    situacao_cadastral := none
    socios := [] }

/-- A stream with cnpj "A" occurring twice. -/
def w1hits : List CompanyRecord := [wRecA, wRecA2]

/-- The entity the build stores for the first "A" record. -/
def w1entity : Entity :=
  { cnpj := "A"
    razao_social := some "Acme"
    nome_fantasia := none
    capital_social := some 1000
    uf := some "SP"
    situacao := some "02"
    socios_count := 4 }

/-- The edge built from `wSocio1`. -/
def w1conn1 : Connection :=
  { cnpj := "A"
    cpf := "P1"
    qualificacao := some "49"
    data_entrada := some "2019-05-01"
    percentual := some 50 }

/-- The edge built from `wSocio2`. -/
def w1conn2 : Connection :=
  { cnpj := "A"
    cpf := "P1"
    qualificacao := none
    data_entrada := none
    percentual := none }

/-- The socio node the build stores for cpf "P1". -/
def w1p1 : SocioNode :=
  { cpf := "P1"
    nome := some "Jo"
    companies := ["A", "A"] }

/-- The network `build_from_hits w1hits` produces. -/
def w1net : Network :=
  { companies := [("A", w1entity)]
    socios := [("P1", w1p1)]
    connections := [w1conn1, w1conn2] }

/-- A network holding one person whose display name is null. -/
def c6net : Network :=
  { companies := []
    socios := [("1", { cpf := "1", nome := none, companies := ["A"] })]
    connections := [] }

/-- A network with an entity whose capital is null but all names present. -/
def c6okNet : Network :=
  { companies := [("E", { cnpj := "E"
                          razao_social := some "Eco"
                          nome_fantasia := none
                          capital_social := none
                          uf := none
                          situacao := none
                          socios_count := 0 })]
    socios := [("P", { cpf := "P", nome := some "Ana", companies := [] })]
    connections := [] }

/-! ### Basic lemmas about the embedded operations -/

theorem ok_bind {α β : Type} (a : α) (f : α → Except String β) :
    (Except.ok a >>= f) = f a := rfl

theorem error_bind {α β : Type} (e : String) (f : α → Except String β) :
    ((Except.error e : Except String α) >>= f) = Except.error e := rfl

theorem lookupKey_append_some {β : Type} {l₁ : List (String × β)} (l₂ : List (String × β))
    {k : String} {v : β} (h : lookupKey l₁ k = some v) :
    lookupKey (l₁ ++ l₂) k = some v := by
  induction l₁ with
  | nil => simp [lookupKey] at h
  | cons p ps ih =>
    by_cases hp : p.1 = k
    · simp [lookupKey, hp] at h ⊢; exact h
    · simp [lookupKey, hp] at h ⊢; exact ih h

theorem lookupKey_append_none {β : Type} {l₁ : List (String × β)} (l₂ : List (String × β))
    {k : String} (h : lookupKey l₁ k = none) :
    lookupKey (l₁ ++ l₂) k = lookupKey l₂ k := by
  induction l₁ with
  | nil => simp
  | cons p ps ih =>
    by_cases hp : p.1 = k
    · simp [lookupKey, hp] at h
    · simp [lookupKey, hp] at h ⊢; exact ih h

theorem lookupKey_append_isSome {β : Type} {l₁ : List (String × β)} (l₂ : List (String × β))
    {k : String} (h : (lookupKey l₁ k).isSome) :
    (lookupKey (l₁ ++ l₂) k).isSome := by
  obtain ⟨v, hv⟩ := Option.isSome_iff_exists.mp h
  rw [lookupKey_append_some l₂ hv]
  rfl

theorem lookupKey_append_single_other {β : Type} (m : List (String × β)) {c q : String}
    (x : β) (h : q ≠ c) :
    lookupKey (m ++ [(c, x)]) q = lookupKey m q := by
  cases hm : lookupKey m q with
  | some v => exact lookupKey_append_some _ hm
  | none => rw [lookupKey_append_none _ hm]; simp [lookupKey, Ne.symm h, hm]

theorem appendCompany_lookup_self {cpf cnpj : String} :
    ∀ {m : List (String × SocioNode)} {p : SocioNode}, lookupKey m cpf = some p →
      lookupKey (appendCompany cpf cnpj m) cpf =
        some { p with companies := p.companies ++ [cnpj] } := by
  intro m
  induction m with
  | nil => intro p h; simp [lookupKey] at h
  | cons x xs ih =>
    intro p h
    by_cases hx : x.1 = cpf
    · simp [lookupKey, hx] at h
      simp [appendCompany, hx, lookupKey, h]
    · simp [lookupKey, hx] at h
      simp [appendCompany, hx, lookupKey, ih h]

theorem appendCompany_lookup_other {cpf cnpj q : String} (hq : q ≠ cpf) :
    ∀ (m : List (String × SocioNode)),
      lookupKey (appendCompany cpf cnpj m) q = lookupKey m q := by
  intro m
  induction m with
  | nil => rfl
  | cons x xs ih =>
    by_cases hx : x.1 = cpf
    · simp [appendCompany, hx, lookupKey, Ne.symm hq]
    · by_cases hxq : x.1 = q
      · simp [appendCompany, hx, lookupKey, hxq, hq]
      · simp [appendCompany, hx, lookupKey, hxq, ih]

theorem processSocio_companies (cnpj : String) (net : Network) (s : Socio) :
    (processSocio cnpj net s).companies = net.companies := by
  cases h : truthyCpf s.cpf <;> simp [processSocio, h]

theorem foldl_processSocio_companies (cnpj : String) (socios : List Socio) :
    ∀ (net : Network),
      (socios.foldl (processSocio cnpj) net).companies = net.companies := by
  induction socios with
  | nil => intro net; rfl
  | cons s rest ih => intro net; rw [List.foldl_cons, ih, processSocio_companies]

theorem socioEvents_nil (cnpj : String) : socioEvents cnpj [] = [] := rfl

theorem socioEvents_cons_none (cnpj : String) {s : Socio} (h : truthyCpf s.cpf = none)
    (rest : List Socio) :
    socioEvents cnpj (s :: rest) = socioEvents cnpj rest := by
  simp [socioEvents, List.filterMap_cons, h]

theorem socioEvents_cons_some (cnpj : String) {s : Socio} {c : String}
    (h : truthyCpf s.cpf = some c) (rest : List Socio) :
    socioEvents cnpj (s :: rest) = ⟨cnpj, c, s⟩ :: socioEvents cnpj rest := by
  simp [socioEvents, List.filterMap_cons, h]

theorem mergeLookup_nil (old : Option SocioNode) (q : String) :
    mergeLookup old q [] = old := by
  cases old <;> simp [mergeLookup]

theorem mergeLookup_cons (old : Option SocioNode) (q : String) (e : OwnEvent)
    (evs : List OwnEvent) :
    mergeLookup old q (e :: evs) = mergeLookup (mergeLookup old q [e]) q evs := by
  by_cases he : e.cpf = q
  · cases old with
    | some p => simp [mergeLookup, List.filter_cons, he]
    | none =>
      simp only [mergeLookup, List.filter_cons, List.filter_nil, he]
      simp
  · cases old with
    | some p => simp [mergeLookup, List.filter_cons, he]
    | none =>
      simp only [mergeLookup, List.filter_cons, List.filter_nil, he]
      simp [mergeLookup]

theorem mergeLookup_append (old : Option SocioNode) (q : String) (evs1 evs2 : List OwnEvent) :
    mergeLookup old q (evs1 ++ evs2) = mergeLookup (mergeLookup old q evs1) q evs2 := by
  induction evs1 generalizing old with
  | nil => simp [mergeLookup_nil]
  | cons e t ih => rw [List.cons_append, mergeLookup_cons, ih, ← mergeLookup_cons]

theorem processSocio_lookup (cnpj : String) (net : Network) (s : Socio) (q : String) :
    lookupKey (processSocio cnpj net s).socios q =
      mergeLookup (lookupKey net.socios q) q (socioEvents cnpj [s]) := by
  cases h : truthyCpf s.cpf with
  | none =>
    rw [socioEvents_cons_none cnpj h, socioEvents_nil, mergeLookup_nil]
    simp [processSocio, h]
  | some c =>
    rw [socioEvents_cons_some cnpj h, socioEvents_nil]
    by_cases hq : q = c
    · subst hq
      cases hold : lookupKey net.socios q with
      | some p =>
        have hs0 : (lookupKey net.socios q).isSome := by rw [hold]; rfl
        simp only [processSocio, h, if_pos hs0]
        rw [appendCompany_lookup_self hold]
        simp [mergeLookup, List.filter_cons]
      | none =>
        have hs0 : ¬ ((lookupKey net.socios q).isSome = true) := by rw [hold]; simp
        simp only [processSocio, h, if_neg hs0]
        have hnew : lookupKey
            (net.socios ++ [(q, { cpf := q, nome := s.nome, companies := [] })]) q =
            some { cpf := q, nome := s.nome, companies := [] } := by
          rw [lookupKey_append_none _ hold]; simp [lookupKey]
        rw [appendCompany_lookup_self hnew]
        simp [mergeLookup, List.filter_cons]
    · have hlook : ∀ m : List (String × SocioNode),
          lookupKey (appendCompany c cnpj m) q = lookupKey m q :=
        appendCompany_lookup_other hq
      have hmerge : mergeLookup (lookupKey net.socios q) q [⟨cnpj, c, s⟩] =
          lookupKey net.socios q := by
        cases hold : lookupKey net.socios q <;>
          simp [mergeLookup, List.filter_cons, Ne.symm hq]
      rw [hmerge]
      by_cases hs0 : (lookupKey net.socios c).isSome = true
      · simp only [processSocio, h, if_pos hs0]
        exact hlook net.socios
      · simp only [processSocio, h, if_neg hs0]
        rw [hlook, lookupKey_append_single_other _ _ hq]

theorem foldl_processSocio_lookup (cnpj : String) (socios : List Socio) :
    ∀ (net : Network) (q : String),
      lookupKey (socios.foldl (processSocio cnpj) net).socios q =
        mergeLookup (lookupKey net.socios q) q (socioEvents cnpj socios) := by
  induction socios with
  | nil => intro net q; rw [socioEvents_nil, mergeLookup_nil]; rfl
  | cons s rest ih =>
    intro net q
    rw [List.foldl_cons, ih]
    cases h : truthyCpf s.cpf with
    | none =>
      rw [socioEvents_cons_none cnpj h]
      have : lookupKey (processSocio cnpj net s).socios q = lookupKey net.socios q := by
        simp [processSocio, h]
      rw [this]
    | some c =>
      rw [socioEvents_cons_some cnpj h, mergeLookup_cons, processSocio_lookup cnpj net s q,
        socioEvents_cons_some cnpj h, socioEvents_nil]

theorem foldl_processSocio_connections (cnpj : String) (socios : List Socio) :
    ∀ (net : Network),
      (socios.foldl (processSocio cnpj) net).connections =
        net.connections ++ (socioEvents cnpj socios).map connectionOfEvent := by
  induction socios with
  | nil => intro net; simp [socioEvents_nil]
  | cons s rest ih =>
    intro net
    rw [List.foldl_cons, ih]
    cases h : truthyCpf s.cpf with
    | none => rw [socioEvents_cons_none cnpj h]; simp [processSocio, h]
    | some c =>
      rw [socioEvents_cons_some cnpj h]
      simp [processSocio, h, connectionOfEvent]

theorem processCompany_mem {st : BuildState} {r : CompanyRecord}
    (h : r.cnpj ∈ st.processed_cnpjs) : processCompany st r = .ok st := by
  simp [processCompany, h]

theorem processCompany_keyError {st : BuildState} {r : CompanyRecord}
    (h1 : r.cnpj ∉ st.processed_cnpjs) (h2 : r.razao_social = none) :
    processCompany st r = .error "KeyError: razao_social" := by
  simp [processCompany, h1, h2]

theorem processCompany_new {st : BuildState} {r : CompanyRecord} {razao : Option String}
    (h1 : r.cnpj ∉ st.processed_cnpjs) (h2 : r.razao_social = some razao) :
    processCompany st r = .ok
      ⟨r.socios.foldl (processSocio r.cnpj)
          { st.network with
            companies := st.network.companies ++ [(r.cnpj, entityOfRecord r razao)] },
        st.processed_cnpjs ++ [r.cnpj]⟩ := by
  simp [processCompany, h1, h2]

/-- Full characterization of the build fold: the dedup set, the company
map, the edge list and every socio-map binding of the final state, as
functions of the record stream and the initial state. -/
theorem foldlM_processCompany_char (hits : List CompanyRecord) :
    ∀ (st st' : BuildState), hits.foldlM processCompany st = .ok st' →
      st'.processed_cnpjs = st.processed_cnpjs ++ newCnpjs st.processed_cnpjs hits ∧
      st'.network.companies =
        st.network.companies ++ companyEntries st.processed_cnpjs hits ∧
      st'.network.connections = st.network.connections ++
        (eventLog st.processed_cnpjs hits).map connectionOfEvent ∧
      ∀ q, lookupKey st'.network.socios q =
        mergeLookup (lookupKey st.network.socios q) q (eventLog st.processed_cnpjs hits) := by
  induction hits with
  | nil =>
    intro st st' h
    have hst : st = st' := by simpa [List.foldlM_nil, pure, Except.pure] using h
    subst hst
    simp [newCnpjs, companyEntries, eventLog, mergeLookup_nil]
  | cons r rs ih =>
    intro st st' h
    rw [List.foldlM_cons] at h
    by_cases hmem : r.cnpj ∈ st.processed_cnpjs
    · rw [processCompany_mem hmem, ok_bind] at h
      obtain ⟨h1, h2, h3, h4⟩ := ih st st' h
      refine ⟨?_, ?_, ?_, ?_⟩ <;>
        simp [newCnpjs, companyEntries, eventLog, hmem, h1, h2, h3, h4]
    · cases hra : r.razao_social with
      | none =>
        rw [processCompany_keyError hmem hra, error_bind] at h
        exact absurd h (by simp)
      | some razao =>
        rw [processCompany_new hmem hra, ok_bind] at h
        obtain ⟨h1, h2, h3, h4⟩ := ih _ st' h
        have hcomp : (r.socios.foldl (processSocio r.cnpj)
            { st.network with
              companies := st.network.companies ++ [(r.cnpj, entityOfRecord r razao)] }).companies =
            st.network.companies ++ [(r.cnpj, entityOfRecord r razao)] :=
          foldl_processSocio_companies _ _ _
        have hconn : (r.socios.foldl (processSocio r.cnpj)
            { st.network with
              companies := st.network.companies ++ [(r.cnpj, entityOfRecord r razao)] }).connections =
            st.network.connections ++ (socioEvents r.cnpj r.socios).map connectionOfEvent :=
          foldl_processSocio_connections _ _ _
        have hsoc : ∀ q, lookupKey (r.socios.foldl (processSocio r.cnpj)
            { st.network with
              companies := st.network.companies ++ [(r.cnpj, entityOfRecord r razao)] }).socios q =
            mergeLookup (lookupKey st.network.socios q) q (socioEvents r.cnpj r.socios) :=
          fun q => foldl_processSocio_lookup _ _ _ q
        refine ⟨?_, ?_, ?_, ?_⟩
        · rw [h1]; simp [newCnpjs, hmem]
        · rw [h2, hcomp]; simp [companyEntries, hmem, hra]
        · rw [h3, hconn]; simp [eventLog, hmem]
        · intro q
          rw [h4 q, hsoc q]
          simp [eventLog, hmem, mergeLookup_append]

/-- Specialization of the characterization to a build started from the
empty network. -/
theorem build_from_hits_char {hits : List CompanyRecord} {net : Network}
    (h : build_from_hits hits = .ok net) :
    net.companies = companyEntries [] hits ∧
    net.connections = (eventLog [] hits).map connectionOfEvent ∧
    ∀ q, lookupKey net.socios q = mergeLookup none q (eventLog [] hits) := by
  unfold build_from_hits at h
  cases hfold : hits.foldlM processCompany ⟨Network.empty, []⟩ with
  | error e => rw [hfold] at h; exact absurd h (by simp [error_bind])
  | ok stf =>
    rw [hfold, ok_bind] at h
    have hnet : stf.network = net := by
      simpa [pure, Except.pure] using h
    obtain ⟨_, h2, h3, h4⟩ := foldlM_processCompany_char hits _ _ hfold
    subst hnet
    refine ⟨?_, ?_, ?_⟩
    · simpa [Network.empty] using h2
    · simpa [Network.empty] using h3
    · intro q
      have := h4 q
      simpa [Network.empty, lookupKey] using this

/-! ### Lemmas about the derived logs -/

theorem length_socioEvents (cnpj : String) (socios : List Socio) :
    (socioEvents cnpj socios).length =
      socios.countP (fun s => (truthyCpf s.cpf).isSome) := by
  induction socios with
  | nil => rfl
  | cons s rest ih =>
    cases h : truthyCpf s.cpf with
    | none =>
      rw [socioEvents_cons_none cnpj h, List.countP_cons]
      simp [h, ih]
    | some c =>
      rw [socioEvents_cons_some cnpj h, List.countP_cons]
      simp [h, ih]

theorem mem_socioEvents {e : OwnEvent} {cnpj : String} {socios : List Socio}
    (h : e ∈ socioEvents cnpj socios) :
    e.cnpj = cnpj ∧ ∃ s ∈ socios, truthyCpf s.cpf = some e.cpf := by
  rw [socioEvents, List.mem_filterMap] at h
  obtain ⟨s, hs, hmap⟩ := h
  cases ht : truthyCpf s.cpf with
  | none => rw [ht] at hmap; exact absurd hmap (by simp)
  | some c =>
    rw [ht] at hmap
    have he : OwnEvent.mk cnpj c s = e := by simpa using hmap
    subst he
    exact ⟨rfl, s, hs, ht⟩

theorem countP_socioEvents_cnpj (cnpj c : String) (socios : List Socio) :
    (socioEvents cnpj socios).countP (fun e => decide (e.cnpj = c)) =
      if cnpj = c then (socioEvents cnpj socios).length else 0 := by
  by_cases h : cnpj = c
  · rw [if_pos h]
    rw [List.countP_eq_length]
    intro e he
    have := (mem_socioEvents he).1
    simp [this, h]
  · rw [if_neg h]
    rw [List.countP_eq_zero]
    intro e he
    have := (mem_socioEvents he).1
    simp [this, h]

theorem countP_eventLog_skip (c : String) (hits : List CompanyRecord) :
    ∀ seen, c ∈ seen →
      (eventLog seen hits).countP (fun e => decide (e.cnpj = c)) = 0 := by
  induction hits with
  | nil => intro seen _; rfl
  | cons r rs ih =>
    intro seen hc
    by_cases hmem : r.cnpj ∈ seen
    · simp only [eventLog, if_pos hmem]
      exact ih seen hc
    · have hrc : r.cnpj ≠ c := fun h => hmem (h ▸ hc)
      simp only [eventLog, if_neg hmem, List.countP_append]
      rw [countP_socioEvents_cnpj, if_neg hrc, ih _ (List.mem_append_left _ hc)]

theorem countP_eventLog_first (c : String) (r : CompanyRecord) (hits : List CompanyRecord) :
    ∀ seen, c ∉ seen →
      hits.find? (fun x => decide (x.cnpj = c)) = some r →
      (eventLog seen hits).countP (fun e => decide (e.cnpj = c)) =
        (socioEvents r.cnpj r.socios).length := by
  induction hits with
  | nil => intro seen _ hf; simp at hf
  | cons x rs ih =>
    intro seen hc hf
    by_cases hxc : x.cnpj = c
    · rw [List.find?_cons_of_pos _ (by simpa using hxc)] at hf
      have hxr : x = r := by simpa using hf
      subst hxr
      by_cases hmem : x.cnpj ∈ seen
      · exact absurd (hxc ▸ hmem) hc
      · simp only [eventLog, if_neg hmem, List.countP_append]
        rw [countP_socioEvents_cnpj, if_pos hxc,
          countP_eventLog_skip c rs _ (by simp [hxc]), Nat.add_zero]
    · rw [List.find?_cons_of_neg _ (by simpa using hxc)] at hf
      by_cases hmem : x.cnpj ∈ seen
      · simp only [eventLog, if_pos hmem]
        exact ih seen hc hf
      · simp only [eventLog, if_neg hmem, List.countP_append]
        rw [countP_socioEvents_cnpj, if_neg hxc,
          ih _ (by simp [hc, Ne.symm hxc]) hf, Nat.zero_add]

theorem countP_companyEntries (c : String) (hits : List CompanyRecord) :
    ∀ seen,
      (companyEntries seen hits).countP (fun p => decide (p.1 = c)) =
        if c ∉ seen ∧ (∃ r ∈ hits, r.cnpj = c) then 1 else 0 := by
  induction hits with
  | nil => intro seen; simp [companyEntries]
  | cons r rs ih =>
    intro seen
    by_cases hmem : r.cnpj ∈ seen
    · simp only [companyEntries, if_pos hmem]
      rw [ih seen]
      by_cases hc : c ∈ seen
      · simp [hc]
      · have hrc : ¬ r.cnpj = c := fun h => hc (h ▸ hmem)
        simp [hc, hrc]
    · simp only [companyEntries, if_neg hmem]
      rw [List.countP_cons, ih]
      by_cases hrc : r.cnpj = c
      · have hcseen : c ∉ seen := hrc ▸ hmem
        have hcs : c ∈ seen ++ [r.cnpj] := by simp [hrc]
        simp [hcs, hcseen, hrc]
      · by_cases hc : c ∈ seen
        · have hcs : c ∈ seen ++ [r.cnpj] := by simp [hc]
          simp [hc, hcs, hrc]
        · have hcs : c ∉ seen ++ [r.cnpj] := by
            simp only [List.mem_append, List.mem_singleton]
            rintro (h | h)
            · exact hc h
            · exact hrc h.symm
          simp [hc, hcs, hrc]

theorem lookup_companyEntries (c : String) (r : CompanyRecord) (hits : List CompanyRecord) :
    ∀ seen, c ∉ seen →
      hits.find? (fun x => decide (x.cnpj = c)) = some r →
      lookupKey (companyEntries seen hits) c =
        some (entityOfRecord r (r.razao_social.getD none)) := by
  induction hits with
  | nil => intro seen _ hf; simp at hf
  | cons x rs ih =>
    intro seen hc hf
    by_cases hxc : x.cnpj = c
    · rw [List.find?_cons_of_pos _ (by simpa using hxc)] at hf
      have hxr : x = r := by simpa using hf
      subst hxr
      have hmem : x.cnpj ∉ seen := hxc ▸ hc
      simp [companyEntries, hc, lookupKey, hxc]
    · rw [List.find?_cons_of_neg _ (by simpa using hxc)] at hf
      by_cases hmem : x.cnpj ∈ seen
      · simp only [companyEntries, if_pos hmem]
        exact ih seen hc hf
      · simp only [companyEntries, if_neg hmem]
        rw [lookupKey, if_neg hxc]
        exact ih _ (by simp [hc, Ne.symm hxc]) hf

theorem mem_eventLog {e : OwnEvent} (hits : List CompanyRecord) :
    ∀ seen, e ∈ eventLog seen hits →
      ∃ r ∈ hits, e ∈ socioEvents r.cnpj r.socios := by
  induction hits with
  | nil => intro seen h; simp [eventLog] at h
  | cons r rs ih =>
    intro seen h
    by_cases hmem : r.cnpj ∈ seen
    · simp only [eventLog, if_pos hmem] at h
      obtain ⟨x, hx, hex⟩ := ih seen h
      exact ⟨x, List.mem_cons_of_mem _ hx, hex⟩
    · simp only [eventLog, if_neg hmem, List.mem_append] at h
      cases h with
      | inl h => exact ⟨r, List.mem_cons_self _ _, h⟩
      | inr h =>
        obtain ⟨x, hx, hex⟩ := ih _ h
        exact ⟨x, List.mem_cons_of_mem _ hx, hex⟩

theorem eventLog_cons (seen : List String) (r : CompanyRecord) (rs : List CompanyRecord) :
    eventLog seen (r :: rs) =
      if r.cnpj ∈ seen then eventLog seen rs
      else socioEvents r.cnpj r.socios ++ eventLog (seen ++ [r.cnpj]) rs := rfl

theorem newCnpjs_cons (seen : List String) (r : CompanyRecord) (rs : List CompanyRecord) :
    newCnpjs seen (r :: rs) =
      if r.cnpj ∈ seen then newCnpjs seen rs
      else r.cnpj :: newCnpjs (seen ++ [r.cnpj]) rs := rfl

theorem eventLog_append (l1 l2 : List CompanyRecord) :
    ∀ seen, eventLog seen (l1 ++ l2) =
      eventLog seen l1 ++ eventLog (seen ++ newCnpjs seen l1) l2 := by
  induction l1 with
  | nil => intro seen; simp [eventLog, newCnpjs]
  | cons r rs ih =>
    intro seen
    rw [List.cons_append, eventLog_cons, eventLog_cons, newCnpjs_cons]
    by_cases hmem : r.cnpj ∈ seen
    · rw [if_pos hmem, if_pos hmem, if_pos hmem, ih]
    · have hseen : seen ++ [r.cnpj] ++ newCnpjs (seen ++ [r.cnpj]) rs =
          seen ++ r.cnpj :: newCnpjs (seen ++ [r.cnpj]) rs := by
        rw [List.append_assoc]; rfl
      rw [if_neg hmem, if_neg hmem, if_neg hmem, ih, hseen, List.append_assoc]

theorem find_eq_filter_head {α : Type} (p : α → Bool) (l : List α) :
    l.find? p = (l.filter p).head? := by
  induction l with
  | nil => rfl
  | cons x xs ih =>
    by_cases h : p x
    · rw [List.find?_cons_of_pos _ h, List.filter_cons, if_pos h]
      rfl
    · rw [List.find?_cons_of_neg _ h, List.filter_cons, if_neg h, ih]

/-! ### The dedup guard, error freedom, and referential integrity -/

theorem dedupFrom_cons (seen : List String) (r : CompanyRecord) (rs : List CompanyRecord) :
    dedupFrom seen (r :: rs) =
      if r.cnpj ∈ seen then dedupFrom seen rs
      else r :: dedupFrom (seen ++ [r.cnpj]) rs := rfl

theorem foldlM_dedupFrom (hits : List CompanyRecord) :
    ∀ st : BuildState,
      hits.foldlM processCompany st =
        (dedupFrom st.processed_cnpjs hits).foldlM processCompany st := by
  induction hits with
  | nil => intro st; rfl
  | cons r rs ih =>
    intro st
    rw [dedupFrom_cons]
    by_cases hmem : r.cnpj ∈ st.processed_cnpjs
    · rw [if_pos hmem, List.foldlM_cons, processCompany_mem hmem, ok_bind, ih]
    · rw [if_neg hmem, List.foldlM_cons, List.foldlM_cons]
      cases hra : r.razao_social with
      | none => rw [processCompany_keyError hmem hra, error_bind, error_bind]
      | some razao => rw [processCompany_new hmem hra, ok_bind, ok_bind, ih]

theorem build_from_hits_dedupFrom (hits : List CompanyRecord) :
    build_from_hits hits = build_from_hits (dedupFrom [] hits) := by
  unfold build_from_hits
  rw [foldlM_dedupFrom hits ⟨Network.empty, []⟩]

theorem foldlM_processCompany_ok (hits : List CompanyRecord) :
    (∀ r ∈ hits, r.razao_social.isSome) →
    ∀ st, ∃ st', hits.foldlM processCompany st = .ok st' := by
  induction hits with
  | nil => intro _ st; exact ⟨st, rfl⟩
  | cons r rs ih =>
    intro h st
    rw [List.foldlM_cons]
    by_cases hmem : r.cnpj ∈ st.processed_cnpjs
    · rw [processCompany_mem hmem, ok_bind]
      exact ih (fun x hx => h x (List.mem_cons_of_mem _ hx)) st
    · cases hra : r.razao_social with
      | none =>
        have hsome := h r (List.mem_cons_self _ _)
        rw [hra] at hsome
        exact absurd hsome (by simp)
      | some razao =>
        rw [processCompany_new hmem hra, ok_bind]
        exact ih (fun x hx => h x (List.mem_cons_of_mem _ hx)) _

theorem build_from_hits_ok (hits : List CompanyRecord)
    (h : ∀ r ∈ hits, r.razao_social.isSome) :
    ∃ net, build_from_hits hits = .ok net := by
  obtain ⟨st', hst⟩ := foldlM_processCompany_ok hits h ⟨Network.empty, []⟩
  exact ⟨st'.network, by unfold build_from_hits; rw [hst, ok_bind]; rfl⟩

theorem mergeLookup_isSome {old : Option SocioNode} {q : String} (evs : List OwnEvent)
    (h : old.isSome) : (mergeLookup old q evs).isSome := by
  cases old with
  | some p => simp [mergeLookup]
  | none => simp at h

theorem edgeIntegrity_processSocio {cnpj : String} {net : Network} (s : Socio)
    (hc : (lookupKey net.companies cnpj).isSome) (h : EdgeIntegrity net) :
    EdgeIntegrity (processSocio cnpj net s) := by
  cases ht : truthyCpf s.cpf with
  | none => simpa [processSocio, ht] using h
  | some c =>
    intro e he
    have hconn : (processSocio cnpj net s).connections =
        net.connections ++ [connectionOfEvent ⟨cnpj, c, s⟩] := by
      simp [processSocio, ht, connectionOfEvent]
    have hcomp := processSocio_companies cnpj net s
    have hlook : ∀ q, lookupKey (processSocio cnpj net s).socios q =
        mergeLookup (lookupKey net.socios q) q [⟨cnpj, c, s⟩] := by
      intro q
      rw [processSocio_lookup, socioEvents_cons_some cnpj ht, socioEvents_nil]
    rw [hconn, List.mem_append] at he
    cases he with
    | inl hin =>
      obtain ⟨h1, h2⟩ := h e hin
      refine ⟨by rw [hcomp]; exact h1, ?_⟩
      rw [hlook]
      exact mergeLookup_isSome _ h2
    | inr hin =>
      have he2 : e = connectionOfEvent ⟨cnpj, c, s⟩ := by simpa using hin
      subst he2
      refine ⟨by rw [hcomp]; exact hc, ?_⟩
      rw [hlook]
      cases hold : lookupKey net.socios c <;>
        simp [hold, mergeLookup, List.filter_cons, connectionOfEvent]

theorem edgeIntegrity_foldl_processSocio (cnpj : String) (socios : List Socio) :
    ∀ net : Network, (lookupKey net.companies cnpj).isSome → EdgeIntegrity net →
      EdgeIntegrity (socios.foldl (processSocio cnpj) net) := by
  induction socios with
  | nil => intro net _ h; exact h
  | cons s rest ih =>
    intro net hc h
    rw [List.foldl_cons]
    refine ih _ ?_ (edgeIntegrity_processSocio s hc h)
    rw [processSocio_companies]
    exact hc

theorem edgeIntegrity_processCompany {st st' : BuildState} {r : CompanyRecord}
    (hok : processCompany st r = .ok st') (h : EdgeIntegrity st.network) :
    EdgeIntegrity st'.network := by
  by_cases hmem : r.cnpj ∈ st.processed_cnpjs
  · rw [processCompany_mem hmem] at hok
    cases hok
    exact h
  · cases hra : r.razao_social with
    | none => rw [processCompany_keyError hmem hra] at hok; cases hok
    | some razao =>
      rw [processCompany_new hmem hra] at hok
      cases hok
      apply edgeIntegrity_foldl_processSocio
      · cases hl : lookupKey st.network.companies r.cnpj with
        | some v => exact lookupKey_append_isSome _ (by rw [hl]; rfl)
        | none => rw [lookupKey_append_none _ hl]; simp [lookupKey]
      · intro e he
        obtain ⟨h1, h2⟩ := h e he
        exact ⟨lookupKey_append_isSome _ h1, h2⟩

theorem edgeIntegrity_foldlM (hits : List CompanyRecord) :
    ∀ st st', hits.foldlM processCompany st = .ok st' →
      EdgeIntegrity st.network → EdgeIntegrity st'.network := by
  induction hits with
  | nil =>
    intro st st' h hint
    have hst : st = st' := by simpa [List.foldlM_nil, pure, Except.pure] using h
    subst hst
    exact hint
  | cons r rs ih =>
    intro st st' h hint
    rw [List.foldlM_cons] at h
    cases hpc : processCompany st r with
    | error e => rw [hpc, error_bind] at h; cases h
    | ok st1 =>
      rw [hpc, ok_bind] at h
      exact ih _ _ h (edgeIntegrity_processCompany hpc hint)

theorem edgeIntegrity_build {hits : List CompanyRecord} {net : Network}
    (h : build_from_hits hits = .ok net) : EdgeIntegrity net := by
  unfold build_from_hits at h
  cases hfold : hits.foldlM processCompany ⟨Network.empty, []⟩ with
  | error e => rw [hfold] at h; exact absurd h (by simp [error_bind])
  | ok stf =>
    rw [hfold, ok_bind] at h
    have hnet : stf.network = net := by simpa [pure, Except.pure] using h
    subst hnet
    refine edgeIntegrity_foldlM hits _ _ hfold ?_
    intro e he
    simp [Network.empty] at he

/-! ### The analyzer -/

theorem printAll_printSocioLine (l : List (String × SocioNode)) :
    printAll printSocioLine l = .ok () ↔ ∀ x ∈ l, x.2.nome.isSome := by
  induction l with
  | nil => simp [printAll]
  | cons x xs ih =>
    cases hn : x.2.nome with
    | none =>
      simp only [printAll, printSocioLine, hn, error_bind]
      constructor
      · intro h; exact absurd h (by simp)
      · intro h
        have := h x (List.mem_cons_self _ _)
        rw [hn] at this
        exact absurd this (by simp)
    | some v =>
      simp only [printAll, printSocioLine, hn, ok_bind]
      rw [ih]
      constructor
      · intro h y hy
        rcases List.mem_cons.mp hy with hy | hy
        · subst hy; simp [hn]
        · exact h y hy
      · intro h y hy
        exact h y (List.mem_cons_of_mem _ hy)

theorem printAll_printCompanyLine (l : List (String × Entity)) :
    printAll printCompanyLine l = .ok () ↔ ∀ x ∈ l, x.2.razao_social.isSome := by
  induction l with
  | nil => simp [printAll]
  | cons x xs ih =>
    cases hn : x.2.razao_social with
    | none =>
      simp only [printAll, printCompanyLine, hn, error_bind]
      constructor
      · intro h; exact absurd h (by simp)
      · intro h
        have := h x (List.mem_cons_self _ _)
        rw [hn] at this
        exact absurd this (by simp)
    | some v =>
      simp only [printAll, printCompanyLine, hn, ok_bind]
      rw [ih]
      constructor
      · intro h y hy
        rcases List.mem_cons.mp hy with hy | hy
        · subst hy; simp [hn]
        · exact h y hy
      · intro h y hy
        exact h y (List.mem_cons_of_mem _ hy)

theorem analyze_network_eq (network : Network) :
    analyze_network network =
      (printAll printSocioLine (socios_by_companies network) >>= fun _ =>
        printAll printCompanyLine (companies_by_socios network) >>= fun _ =>
          printAll printCompanyLine (companies_by_capital network) >>= fun _ =>
            pure ⟨socios_by_companies network, companies_by_socios network,
              companies_by_capital network⟩) := rfl

theorem analyze_network_ok {net : Network}
    (h1 : ∀ x ∈ socios_by_companies net, x.2.nome.isSome)
    (h2 : ∀ x ∈ companies_by_socios net, x.2.razao_social.isSome)
    (h3 : ∀ x ∈ companies_by_capital net, x.2.razao_social.isSome) :
    analyze_network net = .ok
      ⟨socios_by_companies net, companies_by_socios net, companies_by_capital net⟩ := by
  rw [analyze_network_eq,
    (printAll_printSocioLine _).mpr h1, ok_bind,
    (printAll_printCompanyLine _).mpr h2, ok_bind,
    (printAll_printCompanyLine _).mpr h3, ok_bind]
  rfl

theorem mergeSort_take_pairwise {α β : Type} [LinearOrder β] (k : α → β)
    (l : List α) (n : Nat) :
    ((l.mergeSort (fun a b => decide (k b ≤ k a))).take n).Pairwise
      (fun a b => k b ≤ k a) := by
  have hs := @List.sorted_mergeSort α (fun a b => decide (k b ≤ k a))
    (fun a b c hab hbc => by
      simp only [decide_eq_true_eq] at hab hbc ⊢
      exact le_trans hbc hab)
    (fun a b => by
      simp only [Bool.or_eq_true, decide_eq_true_eq]
      exact le_total (k b) (k a))
    l
  have hTake := List.Pairwise.sublist (List.take_sublist n _) hs
  exact hTake.imp (fun h => by simpa using h)

theorem mergeSort_take_length {α : Type} (le : α → α → Bool) (l : List α) (n : Nat) :
    ((l.mergeSort le).take n).length = min n l.length := by
  rw [List.length_take, List.length_mergeSort]

theorem mergeSort_take_mem {α : Type} {le : α → α → Bool} {l : List α} {n : Nat} {x : α}
    (h : x ∈ (l.mergeSort le).take n) : x ∈ l :=
  List.mem_mergeSort.mp (List.mem_of_mem_take h)

theorem mergeLookup_none_eq_none {q : String} {evs : List OwnEvent}
    (h : evs.filter (fun e => decide (e.cpf = q)) = []) :
    mergeLookup none q evs = none := by
  simp [mergeLookup, h]

theorem mergeLookup_none_of_filter_cons {q : String} {evs : List OwnEvent} {e : OwnEvent}
    {rest : List OwnEvent}
    (h : evs.filter (fun x => decide (x.cpf = q)) = e :: rest) :
    mergeLookup none q evs =
      some ⟨q, e.socio.nome, (e :: rest).map OwnEvent.cnpj⟩ := by
  simp [mergeLookup, h]

/-! ### The claims -/

/-- C1: when the same cnpj occurs more than once in the hit stream, the
build keeps exactly one company-map entry for it, the stored attributes
come from the first record with that cnpj, and the whole build equals the
build of the deduplicated stream — so the later duplicates contribute no
entity update, no socios and no connections. -/
theorem dedup_invariant (hits : List CompanyRecord) (net : Network) (c : String)
    (r : CompanyRecord)
    (hok : build_from_hits hits = .ok net)
    (_hdup : 1 < hits.countP (fun x => decide (x.cnpj = c)))
    (hfirst : hits.find? (fun x => decide (x.cnpj = c)) = some r) :
    net.companies.countP (fun p => decide (p.1 = c)) = 1 ∧
    lookupKey net.companies c = some (entityOfRecord r (r.razao_social.getD none)) ∧
    build_from_hits hits = build_from_hits (dedupFrom [] hits) := by
  obtain ⟨hcomp, _, _⟩ := build_from_hits_char hok
  have hmemr : r ∈ hits := List.mem_of_find?_eq_some hfirst
  have hrc : r.cnpj = c := by simpa using List.find?_some hfirst
  refine ⟨?_, ?_, build_from_hits_dedupFrom hits⟩
  · rw [hcomp, countP_companyEntries]
    rw [if_pos ⟨by simp, r, hmemr, hrc⟩]
  · rw [hcomp]
    exact lookup_companyEntries c r hits [] (by simp) hfirst

theorem dedup_invariant_witness :
    (build_from_hits w1hits = .ok w1net ∧
      1 < w1hits.countP (fun x => decide (x.cnpj = "A")) ∧
      w1hits.find? (fun x => decide (x.cnpj = "A")) = some wRecA) ∧
    (w1net.companies.countP (fun p => decide (p.1 = "A")) = 1 ∧
      lookupKey w1net.companies "A" =
        some (entityOfRecord wRecA (wRecA.razao_social.getD none)) ∧
      build_from_hits w1hits = build_from_hits (dedupFrom [] w1hits)) :=
  ⟨⟨rfl, by decide, rfl⟩,
    dedup_invariant w1hits w1net "A" wRecA rfl (by decide) rfl⟩

/-- C2: for the first record of a cnpj, the number of connections built for
that cnpj equals the number of its ownership entries with a truthy cpf,
while the stored `socios_count` is the raw ownership-entry count, hence at
least the edge count; and every person in the socio map arose from some
ownership entry with a truthy cpf — entries without one create neither an
edge nor a person. -/
theorem edge_count_invariant (hits : List CompanyRecord) (net : Network) (c : String)
    (r : CompanyRecord)
    (hok : build_from_hits hits = .ok net)
    (hfirst : hits.find? (fun x => decide (x.cnpj = c)) = some r) :
    net.connections.countP (fun e => decide (e.cnpj = c)) =
      r.socios.countP (fun s => (truthyCpf s.cpf).isSome) ∧
    (lookupKey net.companies c).map Entity.socios_count = some r.socios.length ∧
    r.socios.countP (fun s => (truthyCpf s.cpf).isSome) ≤ r.socios.length ∧
    (∀ q p, lookupKey net.socios q = some p →
      ∃ rr ∈ hits, ∃ s ∈ rr.socios, truthyCpf s.cpf = some q) := by
  obtain ⟨hcomp, hconn, hsoc⟩ := build_from_hits_char hok
  have hrc : r.cnpj = c := by simpa using List.find?_some hfirst
  refine ⟨?_, ?_, List.countP_le_length _, ?_⟩
  · rw [hconn, List.countP_map]
    have hcf : ((fun e => decide (e.cnpj = c)) ∘ connectionOfEvent) =
        fun (e : OwnEvent) => decide (e.cnpj = c) := rfl
    rw [hcf, countP_eventLog_first c r hits [] (by simp) hfirst, length_socioEvents]
  · rw [hcomp, lookup_companyEntries c r hits [] (by simp) hfirst]
    rfl
  · intro q p hq
    rw [hsoc q] at hq
    cases hfil : (eventLog [] hits).filter (fun e => decide (e.cpf = q)) with
    | nil => rw [mergeLookup_none_eq_none hfil] at hq; cases hq
    | cons e rest =>
      have he : e ∈ (eventLog [] hits).filter (fun e => decide (e.cpf = q)) := by
        rw [hfil]; exact List.mem_cons_self _ _
      have hmem := List.mem_of_mem_filter he
      have hpq : e.cpf = q := by simpa using List.of_mem_filter he
      obtain ⟨rr, hrr, hev⟩ := mem_eventLog hits [] hmem
      obtain ⟨_, s, hs, hts⟩ := mem_socioEvents hev
      exact ⟨rr, hrr, s, hs, by rw [hts, hpq]⟩

theorem edge_count_invariant_witness :
    (build_from_hits w1hits = .ok w1net ∧
      w1hits.find? (fun x => decide (x.cnpj = "A")) = some wRecA) ∧
    (w1net.connections.countP (fun e => decide (e.cnpj = "A")) =
        wRecA.socios.countP (fun s => (truthyCpf s.cpf).isSome) ∧
      (lookupKey w1net.companies "A").map Entity.socios_count =
        some wRecA.socios.length ∧
      wRecA.socios.countP (fun s => (truthyCpf s.cpf).isSome) ≤ wRecA.socios.length ∧
      (∀ q p, lookupKey w1net.socios q = some p →
        ∃ rr ∈ w1hits, ∃ s ∈ rr.socios, truthyCpf s.cpf = some q)) :=
  ⟨⟨rfl, rfl⟩, edge_count_invariant w1hits w1net "A" wRecA rfl rfl⟩

/-- C3: a person bound in the socio map is exactly the node the first
connection-producing ownership entry for that cpf created: the display name
is that first entry's name, the company list is one cnpj per connection
with that cpf (duplicates allowed), so its length is the connection count;
and on any prefix of the build the node has the same name and a prefix of
the final company list — the name is never updated afterwards. -/
theorem person_merge_invariant (hits : List CompanyRecord) (net : Network)
    (q : String) (p : SocioNode)
    (hok : build_from_hits hits = .ok net)
    (hp : lookupKey net.socios q = some p) :
    p.companies.length = net.connections.countP (fun e => decide (e.cpf = q)) ∧
    p.companies =
      ((eventLog [] hits).filter (fun e => decide (e.cpf = q))).map OwnEvent.cnpj ∧
    (∀ e, (eventLog [] hits).find? (fun e => decide (e.cpf = q)) = some e →
      p.nome = e.socio.nome) ∧
    (∀ n netn pn, build_from_hits (hits.take n) = .ok netn →
      lookupKey netn.socios q = some pn →
      pn.nome = p.nome ∧ ∃ t, p.companies = pn.companies ++ t) := by
  obtain ⟨_, hconn, hsoc⟩ := build_from_hits_char hok
  have hq := hsoc q
  rw [hp] at hq
  cases hfil : (eventLog [] hits).filter (fun e => decide (e.cpf = q)) with
  | nil =>
    rw [mergeLookup_none_eq_none hfil] at hq
    cases hq
  | cons e rest =>
    rw [mergeLookup_none_of_filter_cons hfil] at hq
    have hpe : p = ⟨q, e.socio.nome, (e :: rest).map OwnEvent.cnpj⟩ := Option.some.inj hq
    subst hpe
    refine ⟨?_, ?_, ?_, ?_⟩
    · rw [hconn, List.countP_map]
      have hcf : ((fun e => decide (e.cpf = q)) ∘ connectionOfEvent) =
          fun (e : OwnEvent) => decide (e.cpf = q) := rfl
      rw [hcf, List.countP_eq_length_filter, hfil]
      simp
    · rfl
    · intro e2 hfind
      rw [find_eq_filter_head, hfil] at hfind
      have : e = e2 := by simpa using hfind
      subst this
      rfl
    · intro n netn pn hokn hpn
      obtain ⟨_, _, hsocn⟩ := build_from_hits_char hokn
      have hqn := hsocn q
      rw [hpn] at hqn
      have hsplit : eventLog [] hits =
          eventLog [] (hits.take n) ++
            eventLog ([] ++ newCnpjs [] (hits.take n)) (hits.drop n) := by
        conv_lhs => rw [← List.take_append_drop n hits]
        exact eventLog_append _ _ []
      cases hfiln : (eventLog [] (hits.take n)).filter (fun x => decide (x.cpf = q)) with
      | nil =>
        rw [mergeLookup_none_eq_none hfiln] at hqn
        cases hqn
      | cons e1 r1 =>
        rw [mergeLookup_none_of_filter_cons hfiln] at hqn
        have hpn2 : pn = ⟨q, e1.socio.nome, (e1 :: r1).map OwnEvent.cnpj⟩ :=
          Option.some.inj hqn
        subst hpn2
        have hfilL : (e : OwnEvent) :: rest = e1 ::
            (r1 ++ (eventLog ([] ++ newCnpjs [] (hits.take n)) (hits.drop n)).filter
              (fun x => decide (x.cpf = q))) := by
          rw [← hfil, hsplit, List.filter_append, hfiln, List.cons_append]
        have he1 : e = e1 := (List.cons.injEq _ _ _ _ ▸ hfilL).1
        have hrest : rest = r1 ++
            (eventLog ([] ++ newCnpjs [] (hits.take n)) (hits.drop n)).filter
              (fun x => decide (x.cpf = q)) := (List.cons.injEq _ _ _ _ ▸ hfilL).2
        subst he1
        refine ⟨rfl, ⟨((eventLog ([] ++ newCnpjs [] (hits.take n)) (hits.drop n)).filter
            (fun x => decide (x.cpf = q))).map OwnEvent.cnpj, ?_⟩⟩
        rw [hrest]
        simp

theorem person_merge_invariant_witness :
    (build_from_hits w1hits = .ok w1net ∧
      lookupKey w1net.socios "P1" = some w1p1) ∧
    (w1p1.companies.length =
        w1net.connections.countP (fun e => decide (e.cpf = "P1")) ∧
      w1p1.companies =
        ((eventLog [] w1hits).filter (fun e => decide (e.cpf = "P1"))).map
          OwnEvent.cnpj ∧
      (∀ e, (eventLog [] w1hits).find? (fun e => decide (e.cpf = "P1")) = some e →
        w1p1.nome = e.socio.nome) ∧
      (∀ n netn pn, build_from_hits (w1hits.take n) = .ok netn →
        lookupKey netn.socios "P1" = some pn →
        pn.nome = w1p1.nome ∧ ∃ t, w1p1.companies = pn.companies ++ t)) :=
  ⟨⟨rfl, rfl⟩, person_merge_invariant w1hits w1net "P1" w1p1 rfl rfl⟩

/-- C4: each of the three rankings is sorted descending by its key
(persons by company-list length, entities by `socios_count`, entities by
capital with null compared as 0), has length `min 10 n`, and consists of
bindings of the analyzed network itself — the stored capital attribute is
not modified, the null-as-0 reading is used only inside the comparison. -/
theorem ranking_correctness (net : Network) :
    ((socios_by_companies net).length = min 10 net.socios.length ∧
      (socios_by_companies net).Pairwise
        (fun a b => b.2.companies.length ≤ a.2.companies.length) ∧
      ∀ x ∈ socios_by_companies net, x ∈ net.socios) ∧
    ((companies_by_socios net).length = min 10 net.companies.length ∧
      (companies_by_socios net).Pairwise
        (fun a b => b.2.socios_count ≤ a.2.socios_count) ∧
      ∀ x ∈ companies_by_socios net, x ∈ net.companies) ∧
    ((companies_by_capital net).length = min 10 net.companies.length ∧
      (companies_by_capital net).Pairwise
        (fun a b => capitalOrZero b.2 ≤ capitalOrZero a.2) ∧
      ∀ x ∈ companies_by_capital net, x ∈ net.companies) := by
  refine ⟨⟨?_, ?_, ?_⟩, ⟨?_, ?_, ?_⟩, ⟨?_, ?_, ?_⟩⟩
  · exact mergeSort_take_length _ _ _
  · exact mergeSort_take_pairwise (fun x => x.2.companies.length) net.socios 10
  · intro x hx; exact mergeSort_take_mem hx
  · exact mergeSort_take_length _ _ _
  · exact mergeSort_take_pairwise (fun x => x.2.socios_count) net.companies 10
  · intro x hx; exact mergeSort_take_mem hx
  · exact mergeSort_take_length _ _ _
  · exact mergeSort_take_pairwise (fun x => capitalOrZero x.2) net.companies 10
  · intro x hx; exact mergeSort_take_mem hx

/-- C5 counterexample: a 200 response whose payload does not parse makes
`response.json()` raise, so the seed lookup does NOT treat an unparseable
payload as an empty result: the error propagates out of `build_network`,
refuting the claim that build never crashes on a malformed response. -/
theorem search_degrades_counterexample :
    search_companies ⟨200, none⟩ = .error "JSONDecodeError" ∧
    build_network ⟨200, none⟩ = .error "JSONDecodeError" := ⟨rfl, rfl⟩

/-- C5 amended: only a non-success status is treated as an empty result
sequence (and the build then proceeds over no hits); a parseable success
payload yields its hits; an unparseable payload under a success status
raises and the exception propagates out of the build. -/
theorem search_degrades_amended (resp : SearchResponse) :
    (resp.status_code ≠ 200 →
      search_companies resp = .ok [] ∧ build_network resp = build_from_hits []) ∧
    (∀ b, resp.status_code = 200 → resp.body = some b →
      search_companies resp = .ok (b.hits.getD [])) ∧
    (resp.status_code = 200 → resp.body = none →
      search_companies resp = .error "JSONDecodeError" ∧
      build_network resp = .error "JSONDecodeError") := by
  refine ⟨?_, ?_, ?_⟩
  · intro h
    have hs : search_companies resp = .ok [] := by simp [search_companies, h]
    exact ⟨hs, by unfold build_network; rw [hs, ok_bind]⟩
  · intro b h hb
    simp [search_companies, h, hb]
  · intro h hb
    have hs : search_companies resp = .error "JSONDecodeError" := by
      simp [search_companies, h, hb]
    exact ⟨hs, by unfold build_network; rw [hs, error_bind]⟩

theorem search_degrades_amended_witness :
    ((⟨500, none⟩ : SearchResponse).status_code ≠ 200) ∧
    (search_companies ⟨500, none⟩ = .ok [] ∧
      build_network ⟨500, none⟩ = build_from_hits []) :=
  ⟨by decide, (search_degrades_amended ⟨500, none⟩).1 (by decide)⟩

/-- C6 counterexample: the analyzer is NOT total on valid networks: on a
network holding a person whose display name is null, the report line
`data['nome'][:40]` raises `TypeError`, so `analyze_network` does not
terminate normally. (A null capital alone would be fine: the capital pass
reads `capital_social or 0`.) -/
theorem analyzer_totality_counterexample :
    analyze_network c6net = .error "TypeError: NoneType" := by
  rw [analyze_network_eq]
  simp [socios_by_companies, companies_by_socios, companies_by_capital,
    printAll, printSocioLine, c6net]
  rfl

/-- C6 amended: the three ranking passes are total, and the full analyzer
terminates normally with the three lists provided every ranked person has a
non-null display name and every ranked entity a non-null legal name; a
null capital value never raises (it is read as 0 in the comparison and in
the report line). -/
theorem analyzer_totality_amended (net : Network)
    (h1 : ∀ x ∈ socios_by_companies net, x.2.nome.isSome)
    (h2 : ∀ x ∈ companies_by_socios net, x.2.razao_social.isSome)
    (h3 : ∀ x ∈ companies_by_capital net, x.2.razao_social.isSome) :
    analyze_network net = .ok
      ⟨socios_by_companies net, companies_by_socios net, companies_by_capital net⟩ :=
  analyze_network_ok h1 h2 h3

theorem analyzer_totality_amended_witness :
    (∀ x ∈ socios_by_companies c6okNet, x.2.nome.isSome) ∧
    (∀ x ∈ companies_by_socios c6okNet, x.2.razao_social.isSome) ∧
    (∀ x ∈ companies_by_capital c6okNet, x.2.razao_social.isSome) ∧
    analyze_network c6okNet = .ok
      ⟨socios_by_companies c6okNet, companies_by_socios c6okNet,
        companies_by_capital c6okNet⟩ := by
  refine ⟨?_, ?_, ?_, analyzer_totality_amended c6okNet ?_ ?_ ?_⟩ <;>
    simp [socios_by_companies, companies_by_socios, companies_by_capital, c6okNet]

/-- C7 counterexample: a record carrying a fiscal identifier but no
`razao_social` key does NOT produce an entity: the mandatory
`company["razao_social"]` access raises `KeyError`, so the legal name is a
second required field, not an optional one. -/
theorem optional_fields_counterexample :
    build_from_hits [wRecNoRazao] = .error "KeyError: razao_social" := rfl

/-- C7 amended: when every record carries the `razao_social` key, the build
succeeds and inserts an entity for every record's cnpj; the entity stored
for the first record of each cnpj is `entityOfRecord`, which defaults every
other missing field (capital to 0, `socios_count` to the raw ownership
count, remaining optional fields to null). -/
theorem optional_fields_defaulted (hits : List CompanyRecord)
    (h : ∀ r ∈ hits, r.razao_social.isSome) :
    ∃ net, build_from_hits hits = .ok net ∧
      (∀ r ∈ hits, (lookupKey net.companies r.cnpj).isSome) ∧
      (∀ c r, hits.find? (fun x => decide (x.cnpj = c)) = some r →
        lookupKey net.companies c =
          some (entityOfRecord r (r.razao_social.getD none))) ∧
      (∀ r : CompanyRecord, ∀ razao, r.capital_social = none →
        (entityOfRecord r razao).capital_social = some 0) := by
  obtain ⟨net, hnet⟩ := build_from_hits_ok hits h
  obtain ⟨hcomp, _, _⟩ := build_from_hits_char hnet
  refine ⟨net, hnet, ?_, ?_, ?_⟩
  · intro r hr
    have hfs : (hits.find? (fun x => decide (x.cnpj = r.cnpj))).isSome :=
      List.find?_isSome.mpr ⟨r, hr, by simp⟩
    obtain ⟨r0, hr0⟩ := Option.isSome_iff_exists.mp hfs
    rw [hcomp, lookup_companyEntries r.cnpj r0 hits [] (by simp) hr0]
    rfl
  · intro c r hfirst
    rw [hcomp]
    exact lookup_companyEntries c r hits [] (by simp) hfirst
  · intro r razao hcap
    simp [entityOfRecord, hcap]

theorem optional_fields_defaulted_witness :
    (∀ r ∈ [wRecA, wRecD], r.razao_social.isSome) ∧
    (∃ net, build_from_hits [wRecA, wRecD] = .ok net ∧
      (∀ r ∈ [wRecA, wRecD], (lookupKey net.companies r.cnpj).isSome) ∧
      (∀ c r, ([wRecA, wRecD].find? (fun x => decide (x.cnpj = c))) = some r →
        lookupKey net.companies c =
          some (entityOfRecord r (r.razao_social.getD none))) ∧
      (∀ r : CompanyRecord, ∀ razao, r.capital_social = none →
        (entityOfRecord r razao).capital_social = some 0)) :=
  ⟨by decide, optional_fields_defaulted [wRecA, wRecD] (by decide)⟩

/-- C8: a seed search that returns zero results yields the valid empty
network — empty company map, empty socio map, empty edge list — and the
analyzer on the empty network returns three empty lists. -/
theorem empty_results_empty_network (resp : SearchResponse)
    (h : search_companies resp = .ok []) :
    build_network resp = .ok ⟨[], [], []⟩ ∧
    analyze_network ⟨[], [], []⟩ = .ok ⟨[], [], []⟩ := by
  constructor
  · unfold build_network
    rw [h, ok_bind]
    rfl
  · rw [analyze_network_eq]
    simp [socios_by_companies, companies_by_socios, companies_by_capital, printAll]
    rfl

theorem empty_results_empty_network_witness :
    search_companies ⟨404, none⟩ = .ok [] ∧
    (build_network ⟨404, none⟩ = .ok ⟨[], [], []⟩ ∧
      analyze_network ⟨[], [], []⟩ = .ok ⟨[], [], []⟩) :=
  ⟨rfl, empty_results_empty_network ⟨404, none⟩ rfl⟩

/-- C9: referential integrity. The returned network satisfies it; so does
the network built from any prefix of the hit stream; and inside one
record's socios loop every intermediate state keeps it, given the entity
key was inserted before the loop — so both maps contain an edge's keys
already at the moment the edge is appended. -/
theorem referential_integrity (hits : List CompanyRecord) (net : Network)
    (hok : build_from_hits hits = .ok net) :
    EdgeIntegrity net ∧
    (∀ n netn, build_from_hits (hits.take n) = .ok netn → EdgeIntegrity netn) ∧
    (∀ (cnpj : String) (socios : List Socio) (netw : Network) (n : Nat),
      (lookupKey netw.companies cnpj).isSome → EdgeIntegrity netw →
      EdgeIntegrity ((socios.take n).foldl (processSocio cnpj) netw)) :=
  ⟨edgeIntegrity_build hok,
    fun _ _ h => edgeIntegrity_build h,
    fun cnpj socios netw n hc h =>
      edgeIntegrity_foldl_processSocio cnpj (socios.take n) netw hc h⟩

theorem referential_integrity_witness :
    build_from_hits w1hits = .ok w1net ∧
    (EdgeIntegrity w1net ∧
      (∀ n netn, build_from_hits (w1hits.take n) = .ok netn → EdgeIntegrity netn) ∧
      (∀ (cnpj : String) (socios : List Socio) (netw : Network) (n : Nat),
        (lookupKey netw.companies cnpj).isSome → EdgeIntegrity netw →
        EdgeIntegrity ((socios.take n).foldl (processSocio cnpj) netw))) :=
  ⟨rfl, referential_integrity w1hits w1net rfl⟩

/-- C10: the single-entity lookup returns the first hit on a 200 response
with a non-empty hit list, and returns null — without raising — both on a
200 response with an empty hit list and on a non-success response. -/
theorem single_lookup_behavior (resp : SearchResponse) (b : SearchBody) :
    (resp.status_code = 200 → resp.body = some b →
      get_company_by_cnpj resp = .ok (b.hits.getD []).head? ∧
      (b.hits.getD [] = [] → get_company_by_cnpj resp = .ok none) ∧
      (∀ x t, b.hits.getD [] = x :: t → get_company_by_cnpj resp = .ok (some x))) ∧
    (resp.status_code ≠ 200 → get_company_by_cnpj resp = .ok none) := by
  constructor
  · intro h hb
    have hg : get_company_by_cnpj resp = .ok (b.hits.getD []).head? := by
      simp [get_company_by_cnpj, h, hb]
    refine ⟨hg, ?_, ?_⟩
    · intro he; rw [hg, he]; rfl
    · intro x t ht; rw [hg, ht]; rfl
  · intro h
    simp [get_company_by_cnpj, h]

theorem single_lookup_behavior_witness :
    ((⟨200, some ⟨some [wRecA, wRecD]⟩⟩ : SearchResponse).status_code = 200 ∧
      (⟨200, some ⟨some [wRecA, wRecD]⟩⟩ : SearchResponse).body =
        some ⟨some [wRecA, wRecD]⟩) ∧
    (get_company_by_cnpj ⟨200, some ⟨some [wRecA, wRecD]⟩⟩ =
        .ok ((⟨some [wRecA, wRecD]⟩ : SearchBody).hits.getD []).head? ∧
      ((⟨some [wRecA, wRecD]⟩ : SearchBody).hits.getD [] = [] →
        get_company_by_cnpj ⟨200, some ⟨some [wRecA, wRecD]⟩⟩ = .ok none) ∧
      (∀ x t, (⟨some [wRecA, wRecD]⟩ : SearchBody).hits.getD [] = x :: t →
        get_company_by_cnpj ⟨200, some ⟨some [wRecA, wRecD]⟩⟩ = .ok (some x))) ∧
    ((⟨404, none⟩ : SearchResponse).status_code ≠ 200 ∧
      get_company_by_cnpj ⟨404, none⟩ = .ok none) :=
  ⟨⟨rfl, rfl⟩,
    (single_lookup_behavior ⟨200, some ⟨some [wRecA, wRecD]⟩⟩ ⟨some [wRecA, wRecD]⟩).1
      rfl rfl,
    by decide,
    (single_lookup_behavior ⟨404, none⟩ ⟨none⟩).2 (by decide)⟩

end CompanyNetwork
